import Mathlib

/-!
Shallow embedding of the QuietDrop intake and lifecycle engine
(`quietdrop/db.py`, `quietdrop/actions.py`, the settle checks of
`quietdrop/scanner.py` and `quietdrop/watcher.py`).

Modelling conventions:
* A filesystem path is its list of components (`FsPath`); `str(p)` and
  `Path(s)` are the identity under this abstraction.
* Timestamps and the settle threshold (Python floats) are rationals.
* The SQLite table plus its connection state is `Store`: the ordered list
  of rows, the AUTOINCREMENT sequence, and the connection-level
  `sqlite3_last_insert_rowid` value (0 on a fresh connection; updated by
  a successful INSERT; *not* updated when an upsert takes the
  `ON CONFLICT DO UPDATE` branch — SQLite semantics).
* The filesystem is the set of existing regular files, as a Boolean
  predicate on paths; directories are not tracked, so `mkdir` is a no-op
  of the model and `os.replace` removes the source and adds the
  destination.
* Python exceptions (`KeyError`, `RuntimeError`, `sqlite3.IntegrityError`)
  become the error type `Err`.
-/

namespace QuietDrop

/-- The four statuses of `Status = Literal["new","reviewed","archived","rejected"]`,
also the CHECK constraint of the schema. -/
inductive Status where
  | new
  | reviewed
  | archived
  | rejected
deriving DecidableEq

/-- A path, abstracted as its list of components. -/
abbrev FsPath := List String

/-- The `Item` dataclass / one row of the `items` table. -/
structure Item where
  id : Nat
  path : FsPath
  filename : String
  size : Nat
  mtime : ℚ
  first_seen : ℚ
  status : Status
  reviewed_at : Option ℚ
  archived_at : Option ℚ
  rejected_at : Option ℚ
  tags : List String
deriving DecidableEq

/-- The `items` table together with its SQLite connection state. -/
structure Store where
  rows : List Item
  /-- AUTOINCREMENT sequence: the next inserted row gets id `seq + 1`. -/
  seq : Nat
  /-- `sqlite3_last_insert_rowid` of the connection; 0 before any insert. -/
  lastInsertRowid : Nat
deriving DecidableEq

/-- `connect` on a fresh database file: empty table, fresh connection. -/
def connect : Store := ⟨[], 0, 0⟩

/-- The exceptions the engine raises: `KeyError` for an unknown item id,
`RuntimeError` when `_unique_dest` exhausts its candidates, and
`sqlite3.IntegrityError` for a violation of the UNIQUE(path) constraint. -/
inductive Err where
  | notFound (item_id : Nat)
  | resourceExhausted
  | constraintViolation
deriving DecidableEq

deriving instance DecidableEq for Except

/-- `get_item`: `SELECT * FROM items WHERE id=?` (first matching row). -/
def get_item (st : Store) (item_id : Nat) : Option Item :=
  st.rows.find? (fun r => decide (r.id = item_id))

/-- `get_item_by_path`: `SELECT * FROM items WHERE path=?`. -/
def get_item_by_path (st : Store) (path : FsPath) : Option Item :=
  st.rows.find? (fun r => decide (r.path = path))

/-- `upsert_file`: `INSERT ... ON CONFLICT(path) DO UPDATE SET
filename, size, mtime`, then return `cur.lastrowid` if truthy, else
`SELECT id FROM items WHERE path=?`.  `cur.lastrowid` is the connection's
`last_insert_rowid`, which the DO UPDATE branch leaves unchanged. -/
def upsert_file (st : Store) (path : FsPath) (filename : String) (size : Nat)
    (mtime : ℚ) (now : ℚ) : Nat × Store :=
  let st' : Store :=
    match st.rows.find? (fun r => decide (r.path = path)) with
    | none =>
        let id := st.seq + 1
        { rows := st.rows ++ [⟨id, path, filename, size, mtime, now, .new, none, none, none, []⟩],
          seq := id, lastInsertRowid := id }
    | some _ =>
        { st with rows := st.rows.map fun q =>
            if q.path = path then
              { q with filename := filename, size := size, mtime := mtime }
            else q }
  if st'.lastInsertRowid ≠ 0 then
    (st'.lastInsertRowid, st')
  else
    match st'.rows.find? (fun r => decide (r.path = path)) with
    | some r => (r.id, st')
    | none => (0, st')  -- dead branch: the update branch implies the row exists

/-- `counts_by_status`: `GROUP BY status` counts, zero-filled over the four
statuses (the dict literal `{"new": 0, ...}` of the Python code). -/
def counts_by_status (st : Store) (s : Status) : Nat :=
  (st.rows.filter (fun r => decide (r.status = s))).length

/-- `set_status`: `UPDATE items SET status=?, reviewed_at=COALESCE(reviewed_at,?),
archived_at=COALESCE(archived_at,?), rejected_at=COALESCE(rejected_at,?)
WHERE id=?` with the bind for each timestamp being `now` for the matching
status and NULL otherwise. -/
def set_status (st : Store) (item_id : Nat) (status : Status) (now : ℚ) : Store :=
  let reviewed_at : Option ℚ := if status = .reviewed then some now else none
  let archived_at : Option ℚ := if status = .archived then some now else none
  let rejected_at : Option ℚ := if status = .rejected then some now else none
  { st with rows := st.rows.map fun r =>
      if r.id = item_id then
        { r with status := status,
                 reviewed_at := r.reviewed_at.orElse (fun _ => reviewed_at),
                 archived_at := r.archived_at.orElse (fun _ => archived_at),
                 rejected_at := r.rejected_at.orElse (fun _ => rejected_at) }
      else r }

/-- `set_path`: `UPDATE items SET path=?, filename=? WHERE id=?`; the
UNIQUE(path) constraint raises `IntegrityError` when the update would give
a second row the same path. -/
def set_path (st : Store) (item_id : Nat) (new_path : FsPath)
    (new_filename : String) : Except Err Store :=
  if st.rows.any (fun q => decide (q.id = item_id)) then
    if st.rows.any (fun q => decide (q.id ≠ item_id) && decide (q.path = new_path)) then
      .error .constraintViolation
    else
      .ok { st with rows := st.rows.map fun q =>
              if q.id = item_id then
                { q with path := new_path, filename := new_filename }
              else q }
  else .ok st

/-- `set_path_by_old_path`: `UPDATE items SET path=?, filename=? WHERE path=?`,
with the same UNIQUE(path) constraint. -/
def set_path_by_old_path (st : Store) (old_path new_path : FsPath)
    (new_filename : String) : Except Err Store :=
  if st.rows.any (fun q => decide (q.path = old_path)) then
    if st.rows.any (fun q => decide (q.path ≠ old_path) && decide (q.path = new_path)) then
      .error .constraintViolation
    else
      .ok { st with rows := st.rows.map fun q =>
              if q.path = old_path then
                { q with path := new_path, filename := new_filename }
              else q }
  else .ok st

/-- `add_tags`: trim, drop empties, union with the existing tags, store the
sorted deduplicated result; no-op on unknown id. -/
def add_tags (st : Store) (item_id : Nat) (tags : List String) : Store :=
  match get_item st item_id with
  | none => st
  | some item =>
      let cleaned := (tags.map String.trim).filter (fun t => decide (t ≠ ""))
      let merged := ((item.tags ++ cleaned).dedup).mergeSort (fun a b => decide (a ≤ b))
      { st with rows := st.rows.map fun q =>
          if q.id = item_id then { q with tags := merged } else q }

/-! ### Settle predicates (scanner.py line 40, watcher.py line 66) -/

/-- The Scanner's per-file settle check (`scan_once`): the file is processed
unless `cfg.settle_seconds and (now - st.st_mtime) < cfg.settle_seconds`
(Python truthiness: a float is falsy exactly when it is zero). -/
def scannerAccepts (settle_seconds now mtime : ℚ) : Bool :=
  ! (decide (settle_seconds ≠ 0) && decide (now - mtime < settle_seconds))

/-- The create-event intake path's settle check (`_Handler._intake`): the
file is upserted unless
`self._cfg.settle_seconds and (now - st.st_mtime) < self._cfg.settle_seconds`. -/
def intakeAccepts (settle_seconds now mtime : ℚ) : Bool :=
  ! (decide (settle_seconds ≠ 0) && decide (now - mtime < settle_seconds))

/-- Modelled from the spec (§4.2), for comparison with the code's checks:
`is_settled(last_modified, now, settle_seconds)` is "true when
`settle_seconds <= 0` or `now - last_modified >= settle_seconds`". -/
def is_settled_spec (last_modified now settle_seconds : ℚ) : Bool :=
  decide (settle_seconds ≤ 0) || decide (now - last_modified ≥ settle_seconds)

/-! ### Paths and the filesystem -/

/-- `Path.name`: the last component (empty for the empty path). -/
def pathName (p : FsPath) : String := p.getLast?.getD ""

/-- `Path.with_name`: replace the last component. -/
def withName (p : FsPath) (name : String) : FsPath := p.dropLast ++ [name]

/-- `dir / name`. -/
def childPath (dir : FsPath) (name : String) : FsPath := dir ++ [name]

/-- pathlib's stem/suffix split of a filename: let `i` be the index of the
last dot; if `0 < i < length - 1` the suffix starts at `i`, otherwise the
suffix is empty. -/
def stemSuffix (name : String) : String × String :=
  let cs := name.data
  let n := cs.length
  match ((List.range n).filter (fun i => decide (cs.getD i ' ' = '.'))).getLast? with
  | some i =>
      if 0 < i ∧ i < n - 1 then (String.mk (cs.take i), String.mk (cs.drop i))
      else (name, "")
  | none => (name, "")

/-- The set of existing regular files. -/
abbrev Fs := FsPath → Bool

/-- `os.replace(src, dest)`: the source vanishes, the destination exists
(an existing destination is silently overwritten). -/
def osReplace (fs : Fs) (src dest : FsPath) : Fs :=
  fun q => if q = dest then true else if q = src then false else fs q

/-- The `Config` dataclass (only the fields the core reads). -/
structure Config where
  watched_folders : List FsPath
  archive_folder : FsPath
  poll_seconds : ℚ
  recursive : Bool
  settle_seconds : ℚ

/-! ### Lifecycle actions (actions.py)

Each action returns the store and filesystem as they are when the Python
call returns or raises, plus the returned `Item` or the raised exception. -/

/-- The collision-avoidance loop of `_unique_dest`:
`for i in range(1, 10_000): candidate = dest_dir / f"{base}-{i}{ext}"`,
returning the first candidate that does not exist. -/
def uniqueDestLoop (fs : Fs) (dest_dir : FsPath) (base ext : String) :
    Nat → Nat → Option FsPath
  | _, 0 => none
  | i, fuel + 1 =>
      let candidate := childPath dest_dir (base ++ "-" ++ toString i ++ ext)
      if fs candidate then uniqueDestLoop fs dest_dir base ext (i + 1) fuel
      else some candidate

/-- `_unique_dest(dest_dir, filename)`: `dest_dir / filename` if free,
else the first free `dest_dir / f"{base}-{i}{ext}"` for `i` in
`range(1, 10_000)`; `none` models the `RuntimeError` when all are taken.
(The `mkdir` calls create directories only, which the file-set `Fs` does
not track.) -/
def uniqueDest (fs : Fs) (dest_dir : FsPath) (filename : String) : Option FsPath :=
  let base := (stemSuffix filename).1
  let ext := (stemSuffix filename).2
  let candidate := childPath dest_dir filename
  if fs candidate then uniqueDestLoop fs dest_dir base ext 1 9999
  else some candidate

/-- `mark_reviewed(con, item_id)`. -/
def mark_reviewed (st : Store) (item_id : Nat) (now : ℚ) : Store × Except Err Item :=
  match get_item st item_id with
  | none => (st, .error (.notFound item_id))
  | some _ =>
      let st1 := set_status st item_id .reviewed now
      match get_item st1 item_id with
      | some item2 => (st1, .ok item2)
      | none => (st1, .error (.notFound item_id))  -- dead: the row still exists

/-- `reject(con, item_id)`. -/
def reject (st : Store) (item_id : Nat) (now : ℚ) : Store × Except Err Item :=
  match get_item st item_id with
  | none => (st, .error (.notFound item_id))
  | some _ =>
      let st1 := set_status st item_id .rejected now
      match get_item st1 item_id with
      | some item2 => (st1, .ok item2)
      | none => (st1, .error (.notFound item_id))  -- dead: the row still exists

/-- `archive(con, cfg, item_id)`:  missing source ⇒ status-only update;
otherwise pick a unique destination, `os.replace`, `set_path`,
`set_status('archived')`. -/
def archive (st : Store) (fs : Fs) (cfg : Config) (item_id : Nat) (now : ℚ) :
    Store × Fs × Except Err Item :=
  match get_item st item_id with
  | none => (st, fs, .error (.notFound item_id))
  | some item =>
      if fs item.path = false then
        let st1 := set_status st item_id .archived now
        match get_item st1 item_id with
        | some item2 => (st1, fs, .ok item2)
        | none => (st1, fs, .error (.notFound item_id))  -- dead: the row still exists
      else
        match uniqueDest fs cfg.archive_folder (pathName item.path) with
        | none => (st, fs, .error .resourceExhausted)
        | some dest =>
            let fs1 := osReplace fs item.path dest
            match set_path st item_id dest (pathName dest) with
            | .error e => (st, fs1, .error e)
            | .ok st1 =>
                let st2 := set_status st1 item_id .archived now
                match get_item st2 item_id with
                | some item2 => (st2, fs1, .ok item2)
                | none => (st2, fs1, .error (.notFound item_id))  -- dead

/-- `rename(con, item_id, new_name)`: destination is the sibling of the
current path named `new_name`; `os.replace` only if the source exists;
then `set_path` unconditionally. -/
def rename (st : Store) (fs : Fs) (item_id : Nat) (new_name : String) :
    Store × Fs × Except Err Item :=
  match get_item st item_id with
  | none => (st, fs, .error (.notFound item_id))
  | some item =>
      let dest := withName item.path new_name
      let fs1 := if fs item.path then osReplace fs item.path dest else fs
      match set_path st item_id dest (pathName dest) with
      | .error e => (st, fs1, .error e)
      | .ok st1 =>
          match get_item st1 item_id with
          | some item2 => (st1, fs1, .ok item2)
          | none => (st1, fs1, .error (.notFound item_id))  -- dead

/-! ### Reachable store states

Every mutation of the store in the repository goes through `upsert_file`
(scanner, watcher create/modify), `set_path_by_old_path` (watcher move),
or — inside the lifecycle actions — `set_status` and `set_path`;
`add_tags` is reachable from the CLI/web layer. -/

/-- Store states reachable from a fresh database through the store's
mutation primitives. -/
inductive Reach : Store → Prop where
  | init : Reach connect
  | upsert {st} (p : FsPath) (f : String) (sz : Nat) (m now : ℚ) :
      Reach st → Reach (upsert_file st p f sz m now).2
  | status {st} (item_id : Nat) (s : Status) (now : ℚ) :
      Reach st → Reach (set_status st item_id s now)
  | path {st st'} (item_id : Nat) (np : FsPath) (nf : String) :
      Reach st → set_path st item_id np nf = .ok st' → Reach st'
  | pathByOld {st st'} (op np : FsPath) (nf : String) :
      Reach st → set_path_by_old_path st op np nf = .ok st' → Reach st'
  | tags {st} (item_id : Nat) (ts : List String) :
      Reach st → Reach (add_tags st item_id ts)

/-- The transformation `set_status` applies to the targeted row. -/
def applyStatus (status : Status) (now : ℚ) (r : Item) : Item :=
  { r with status := status,
           reviewed_at := r.reviewed_at.orElse
             (fun _ => if status = .reviewed then some now else none),
           archived_at := r.archived_at.orElse
             (fun _ => if status = .archived then some now else none),
           rejected_at := r.rejected_at.orElse
             (fun _ => if status = .rejected then some now else none) }

/-- The candidate destinations `_unique_dest` tries, in order:
`dest_dir / filename`, then `dest_dir / f"{base}-{i}{ext}"` for
`i = 1, …, 9999`. -/
def destCandidates (dest_dir : FsPath) (filename : String) : List FsPath :=
  childPath dest_dir filename ::
    (List.range' 1 9999).map (fun i =>
      childPath dest_dir ((stemSuffix filename).1 ++ "-" ++ toString i ++ (stemSuffix filename).2))

/-- Row ids never exceed the AUTOINCREMENT sequence. -/
def IdsBounded (st : Store) : Prop := ∀ r ∈ st.rows, r.id ≤ st.seq

/-- A batch of `upsert_file` calls (path, filename, size, mtime, now). -/
def upsertAll (st : Store) (ps : List (FsPath × String × Nat × ℚ × ℚ)) : Store :=
  ps.foldl (fun s x => (upsert_file s x.1 x.2.1 x.2.2.1 x.2.2.2.1 x.2.2.2.2).2) st

/-- A batch of `set_status` calls (item id, status, now). -/
def setStatusAll (st : Store) (ops : List (Nat × Status × ℚ)) : Store :=
  ops.foldl (fun s o => set_status s o.1 o.2.1 o.2.2) st

/-- The transition timestamp field corresponding to each status
(`new` has none). -/
def transitionStamp : Status → Item → Option ℚ
  | .new, _ => none
  | .reviewed, r => r.reviewed_at
  | .archived, r => r.archived_at
  | .rejected, r => r.rejected_at

/-! ### Concrete fixtures used by witnesses and counterexamples -/

/-- A config whose archive folder is `arc`. -/
def archiveDemoCfg : Config := ⟨[["d1"], ["d2"]], ["arc"], 2, false, 2⟩

/-- Two tracked files with distinct paths but one shared filename. -/
def archiveDemoStore : Store :=
  ⟨[⟨1, ["d1", "a.txt"], "a.txt", 1, 0, 10, .new, none, none, none, []⟩,
    ⟨2, ["d2", "a.txt"], "a.txt", 2, 0, 11, .new, none, none, none, []⟩], 2, 2⟩

/-- The filesystem holding exactly those two files. -/
def archiveDemoFs : Fs := fun p => decide (p = ["d1", "a.txt"]) || decide (p = ["d2", "a.txt"])

/-- A filesystem on which every path is taken. -/
def fullFs : Fs := fun _ => true

/-- Two items whose paths are siblings `d/a` and `d/b`. -/
def renameClashStore : Store :=
  ⟨[⟨1, ["d", "a"], "a", 1, 0, 10, .new, none, none, none, []⟩,
    ⟨2, ["d", "b"], "b", 1, 0, 11, .new, none, none, none, []⟩], 2, 2⟩

/-- The filesystem holding both clash files. -/
def renameClashFs : Fs := fun p => decide (p = ["d", "a"]) || decide (p = ["d", "b"])

/-- A single tracked file `d/x.txt`. -/
def renameDemoStore : Store :=
  ⟨[⟨1, ["d", "x.txt"], "x.txt", 1, 0, 10, .new, none, none, none, []⟩], 1, 1⟩

/-- The filesystem holding exactly `d/x.txt`. -/
def renameDemoFs : Fs := fun p => decide (p = ["d", "x.txt"])

/-- An empty filesystem (every recorded source file already deleted). -/
def missingFs : Fs := fun _ => false

/-- The first demo archive run (item 1 of the shared-filename pair). -/
def demoArchive1 : Store × Fs × Except Err Item :=
  archive archiveDemoStore archiveDemoFs archiveDemoCfg 1 50

/-- The second demo archive run (item 2, same filename as item 1). -/
def demoArchive2 : Store × Fs × Except Err Item :=
  archive demoArchive1.1 demoArchive1.2.1 archiveDemoCfg 2 60

/-- Two upserts with distinct paths, for the counting witness. -/
def demoBatch : List (FsPath × String × Nat × ℚ × ℚ) :=
  [(["w", "a"], "a", 1, 0, 100), (["w", "b"], "b", 1, 0, 100)]

/-- A sequence of `set_status` calls, including a repeat and an unknown id. -/
def demoOps : List (Nat × Status × ℚ) :=
  [(1, .reviewed, 5), (1, .reviewed, 7), (9, .archived, 8)]

/-! ### Helper lemmas -/

theorem find?_map_keyed {β : Type} [DecidableEq β] (rows : List Item) (g : Item → β) (a : β)
    (u : Item → Item) (hu : ∀ q, g (u q) = g q) :
    (rows.map fun q => if g q = a then u q else q).find? (fun r => decide (g r = a))
      = (rows.find? (fun r => decide (g r = a))).map u := by
  induction rows with
  | nil => rfl
  | cons r t ih =>
      by_cases h : g r = a
      · rw [List.map_cons, if_pos h, List.find?_cons_of_pos _ (by simp [hu, h]),
            List.find?_cons_of_pos _ (by simp [h]), Option.map_some']
      · rw [List.map_cons, if_neg h, List.find?_cons_of_neg _ (by simp [h]),
            List.find?_cons_of_neg _ (by simp [h]), ih]

theorem map_proj_map_ite {β : Type} (rows : List Item) (k : Item → Prop) [DecidablePred k]
    (u : Item → Item) (g : Item → β) (hg : ∀ q, g (u q) = g q) :
    (rows.map fun q => if k q then u q else q).map g = rows.map g := by
  rw [List.map_map]
  exact List.map_congr_left fun q _ => by by_cases h : k q <;> simp [h, hg]

theorem get_item_set_status (st : Store) (item_id : Nat) (s : Status) (now : ℚ) :
    get_item (set_status st item_id s now) item_id
      = (get_item st item_id).map (applyStatus s now) :=
  find?_map_keyed st.rows Item.id item_id (applyStatus s now) (fun _ => rfl)

theorem get_item_set_path_ok {st st' : Store} {item_id : Nat} {np : FsPath} {nf : String}
    (h : set_path st item_id np nf = .ok st') :
    get_item st' item_id
      = (get_item st item_id).map (fun q => { q with path := np, filename := nf }) := by
  unfold set_path at h
  by_cases h1 : st.rows.any (fun q => decide (q.id = item_id))
  · rw [if_pos h1] at h
    by_cases h2 : st.rows.any (fun q => decide (q.id ≠ item_id) && decide (q.path = np))
    · rw [if_pos h2] at h; cases h
    · rw [if_neg h2, Except.ok.injEq] at h
      subst h
      exact find?_map_keyed st.rows Item.id item_id _ (fun _ => rfl)
  · rw [if_neg h1, Except.ok.injEq] at h
    subst h
    have h0 : st.rows.find? (fun r => decide (r.id = item_id)) = none := by
      rw [List.find?_eq_none]
      intro x hx hc
      exact h1 (List.any_eq_true.2 ⟨x, hx, hc⟩)
    simp [get_item, h0]

theorem upsert_file_snd (st : Store) (p : FsPath) (f : String) (sz : Nat) (m now : ℚ) :
    (upsert_file st p f sz m now).2 =
      match st.rows.find? (fun r => decide (r.path = p)) with
      | none => { rows := st.rows ++ [⟨st.seq + 1, p, f, sz, m, now, .new, none, none, none, []⟩],
                  seq := st.seq + 1, lastInsertRowid := st.seq + 1 }
      | some _ => { st with rows := st.rows.map fun q =>
                      if q.path = p then
                        { q with filename := f, size := sz, mtime := m }
                      else q } := by
  unfold upsert_file
  cases h : st.rows.find? (fun r => decide (r.path = p)) <;>
    simp only [h] <;> split <;> first | rfl | (split <;> rfl)

theorem get_item_by_path_upsert (st : Store) (p : FsPath) (f : String) (sz : Nat) (m now : ℚ) :
    get_item_by_path (upsert_file st p f sz m now).2 p =
      match get_item_by_path st p with
      | some r => some { r with filename := f, size := sz, mtime := m }
      | none => some ⟨st.seq + 1, p, f, sz, m, now, .new, none, none, none, []⟩ := by
  rw [show get_item_by_path (upsert_file st p f sz m now).2 p
        = ((upsert_file st p f sz m now).2).rows.find? (fun r => decide (r.path = p)) from rfl,
      upsert_file_snd]
  unfold get_item_by_path
  cases h : st.rows.find? (fun r => decide (r.path = p)) with
  | none =>
      simp only [h, List.find?_append, h, Option.none_or]
      rw [List.find?_cons_of_pos _ (by simp)]
  | some r =>
      simp only [h]
      exact (find?_map_keyed st.rows Item.path p
        (fun q => { q with filename := f, size := sz, mtime := m }) (fun _ => rfl)).trans
        (by rw [h, Option.map_some'])

theorem set_status_unknown {st : Store} {item_id : Nat} (s : Status) (now : ℚ)
    (h : get_item st item_id = none) : set_status st item_id s now = st := by
  have h' : ∀ r ∈ st.rows, ¬ (r.id = item_id) := by
    intro r hr
    simpa using List.find?_eq_none.1 h r hr
  cases st with
  | mk rows seq liri =>
      simp only [set_status]
      congr 1
      refine (List.map_congr_left fun r hr => ?_).trans (List.map_id rows)
      simp only [if_neg (h' r hr), id]

theorem uniqueDestLoop_eq_find? (fs : Fs) (dest_dir : FsPath) (base ext : String) :
    ∀ fuel i, uniqueDestLoop fs dest_dir base ext i fuel
      = ((List.range' i fuel).map
          (fun j => childPath dest_dir (base ++ "-" ++ toString j ++ ext))).find?
          (fun c => ! fs c) := by
  intro fuel
  induction fuel with
  | zero => intro i; rfl
  | succ n ih =>
      intro i
      rw [List.range'_succ, List.map_cons]
      by_cases h : fs (childPath dest_dir (base ++ "-" ++ toString i ++ ext))
      · rw [List.find?_cons_of_neg _ (by simp [h]), ← ih (i + 1)]
        simp only [uniqueDestLoop, h, if_pos]
      · rw [List.find?_cons_of_pos _ (by simp [h])]
        simp only [uniqueDestLoop]
        rw [if_neg h]

theorem uniqueDest_eq_find? (fs : Fs) (dest_dir : FsPath) (filename : String) :
    uniqueDest fs dest_dir filename
      = (destCandidates dest_dir filename).find? (fun c => ! fs c) := by
  unfold uniqueDest destCandidates
  by_cases h : fs (childPath dest_dir filename)
  · rw [List.find?_cons_of_neg _ (by simp [h]), if_pos h, uniqueDestLoop_eq_find?]
  · rw [List.find?_cons_of_pos _ (by simp [h]), if_neg h]

theorem uniqueDest_some_free {fs : Fs} {dest_dir : FsPath} {filename : String} {d : FsPath}
    (h : uniqueDest fs dest_dir filename = some d) :
    fs d = false ∧ ∃ n, d = childPath dest_dir n := by
  rw [uniqueDest_eq_find?] at h
  constructor
  · simpa using List.find?_some h
  · have hm := List.mem_of_find?_eq_some h
    unfold destCandidates at hm
    rcases List.mem_cons.1 hm with h1 | h2
    · exact ⟨filename, h1⟩
    · rcases List.mem_map.1 h2 with ⟨i, _, hi⟩
      exact ⟨_, hi.symm⟩

theorem pathName_withName (p : FsPath) (n : String) : pathName (withName p n) = n := by
  unfold pathName withName
  rw [List.getLast?_concat]
  rfl

theorem pathName_childPath (dir : FsPath) (n : String) : pathName (childPath dir n) = n := by
  unfold pathName childPath
  rw [List.getLast?_concat]
  rfl

theorem archive_ok_spec {st : Store} {fs : Fs} {cfg : Config} {item_id : Nat} {now : ℚ}
    {st' : Store} {fs' : Fs} {item' : Item} {item : Item}
    (hget : get_item st item_id = some item) (hfs : fs item.path = true)
    (h : archive st fs cfg item_id now = (st', fs', .ok item')) :
    ∃ dest, uniqueDest fs cfg.archive_folder (pathName item.path) = some dest ∧
      fs' = osReplace fs item.path dest ∧
      item'.path = dest ∧ item'.filename = pathName dest ∧
      item'.id = item.id ∧ item'.status = .archived := by
  unfold archive at h
  simp only [hget] at h
  rw [if_neg (by simp [hfs])] at h
  cases hud : uniqueDest fs cfg.archive_folder (pathName item.path) with
  | none => rw [hud] at h; simp at h
  | some dest =>
      simp only [hud] at h
      refine ⟨dest, rfl, ?_⟩
      cases hsp : set_path st item_id dest (pathName dest) with
      | error e => simp only [hsp] at h; simp at h
      | ok st1 =>
          simp only [hsp] at h
          have hg2 : get_item (set_status st1 item_id .archived now) item_id
              = some (applyStatus .archived now
                  { item with path := dest, filename := pathName dest }) := by
            rw [get_item_set_status, get_item_set_path_ok hsp, hget]; rfl
          simp only [hg2, Prod.mk.injEq, Except.ok.injEq] at h
          obtain ⟨-, hB, hC⟩ := h
          subst hC
          exact ⟨hB.symm, rfl, rfl, rfl, rfl⟩

/-! ### The uniqueness invariant of the `items` table -/

theorem filter_key_length_le_one {β : Type} [DecidableEq β] (rows : List Item)
    (g : Item → β) (a : β) (h : (rows.map g).Nodup) :
    (rows.filter (fun q => decide (g q = a))).length ≤ 1 := by
  induction rows with
  | nil => simp
  | cons r t ih =>
      rw [List.map_cons, List.nodup_cons] at h
      by_cases hr : g r = a
      · rw [List.filter_cons, if_pos (by simp [hr])]
        have ht : t.filter (fun q => decide (g q = a)) = [] := by
          rw [List.filter_eq_nil_iff]
          intro q hq hq'
          refine h.1 (List.mem_map.2 ⟨q, hq, ?_⟩)
          rw [show g q = a by simpa using hq', hr]
        rw [ht]
        simp
      · rw [List.filter_cons, if_neg (by simp [hr])]
        exact ih h.2

theorem nodup_path_map_ite (rows : List Item) (k : Item → Prop) [DecidablePred k]
    (u : Item → Item) (np : FsPath)
    (hpaths : (rows.map Item.path).Nodup)
    (hone : (rows.filter (fun q => decide (k q))).length ≤ 1)
    (hnp : ∀ q ∈ rows, ¬ k q → q.path ≠ np)
    (hu : ∀ q, (u q).path = np) :
    ((rows.map fun q => if k q then u q else q).map Item.path).Nodup := by
  induction rows with
  | nil => simp
  | cons r t ih =>
      rw [List.map_cons, List.nodup_cons] at hpaths
      rw [List.map_cons, List.map_cons, List.nodup_cons]
      by_cases hr : k r
      · have htail : t.filter (fun q => decide (k q)) = [] := by
          rw [List.filter_cons, if_pos (by simp [hr])] at hone
          cases hft : t.filter (fun q => decide (k q)) with
          | nil => rfl
          | cons x xs => rw [hft] at hone; simp at hone
        have hknt : ∀ q ∈ t, ¬ k q := by
          intro q hq
          simpa using List.filter_eq_nil_iff.1 htail q hq
        have hmap : t.map (fun q => if k q then u q else q) = t :=
          (List.map_congr_left fun q hq => by rw [if_neg (hknt q hq)]; rfl).trans (List.map_id t)
        rw [if_pos hr, hmap]
        refine ⟨?_, hpaths.2⟩
        rw [hu r]
        intro hmem
        rcases List.mem_map.1 hmem with ⟨q, hq, hqp⟩
        exact hnp q (List.mem_cons_of_mem _ hq) (hknt q hq) hqp
      · rw [if_neg hr]
        refine ⟨?_, ?_⟩
        · intro hmem
          rcases List.mem_map.1 hmem with ⟨q', hq', hqp⟩
          rcases List.mem_map.1 hq' with ⟨q, hq, rfl⟩
          by_cases hkq : k q
          · rw [if_pos hkq, hu q] at hqp
            exact hnp r (List.mem_cons_self r t) hr hqp.symm
          · rw [if_neg hkq] at hqp
            exact hpaths.1 (List.mem_map.2 ⟨q, hq, hqp⟩)
        · refine ih hpaths.2 ?_ (fun q hq => hnp q (List.mem_cons_of_mem _ hq))
          calc (t.filter (fun q => decide (k q))).length
              ≤ ((r :: t).filter (fun q => decide (k q))).length := by
                rw [List.filter_cons, if_neg (by simp [hr])]
            _ ≤ 1 := hone

theorem nodup_map_of_proj_preserved {β : Type} (rows : List Item) (fn : Item → Item)
    (g : Item → β) (hfn : ∀ q, g (fn q) = g q) (h : (rows.map g).Nodup) :
    ((rows.map fn).map g).Nodup := by
  rw [List.map_map]
  exact (List.map_congr_left fun q _ => (hfn q : (g ∘ fn) q = g q)).symm ▸ h

/-- Every reachable store state has strictly bounded ids, pairwise
distinct ids, and pairwise distinct paths (the UNIQUE(path) constraint). -/
theorem reach_inv {st : Store} (h : Reach st) :
    IdsBounded st ∧ (st.rows.map Item.id).Nodup ∧ (st.rows.map Item.path).Nodup := by
  induction h with
  | init =>
      refine ⟨?_, ?_, ?_⟩ <;> simp [connect, IdsBounded]
  | @upsert st p f sz m now _ ih =>
      obtain ⟨hb, hids, hpaths⟩ := ih
      rw [upsert_file_snd]
      cases hf : st.rows.find? (fun r => decide (r.path = p)) with
      | none =>
          have hfresh : ∀ r ∈ st.rows, r.path ≠ p := by
            intro r hr
            simpa using List.find?_eq_none.1 hf r hr
          simp only [hf]
          refine ⟨?_, ?_, ?_⟩
          · intro r hr
            rcases List.mem_append.1 hr with h1 | h1
            · exact Nat.le_trans (hb r h1) (Nat.le_succ _)
            · rw [List.mem_singleton.1 h1]
          · rw [List.map_append, List.nodup_append]
            refine ⟨hids, by simp, ?_⟩
            intro a ha
            rcases List.mem_map.1 ha with ⟨r, hr, rfl⟩
            have := hb r hr
            simp only [List.map_cons, List.map_nil, List.mem_singleton]
            omega
          · rw [List.map_append, List.nodup_append]
            refine ⟨hpaths, by simp, ?_⟩
            intro a ha
            rcases List.mem_map.1 ha with ⟨r, hr, rfl⟩
            simp only [List.map_cons, List.map_nil, List.mem_singleton]
            exact hfresh r hr
      | some r0 =>
          simp only [hf]
          refine ⟨?_, ?_, ?_⟩
          · intro r hr
            rcases List.mem_map.1 hr with ⟨q, hq, rfl⟩
            have := hb q hq
            by_cases hqp : q.path = p <;> simp [hqp] <;> omega
          · exact nodup_map_of_proj_preserved st.rows _ Item.id
              (fun q => by by_cases hqp : q.path = p <;> simp [hqp]) hids
          · exact nodup_map_of_proj_preserved st.rows _ Item.path
              (fun q => by by_cases hqp : q.path = p <;> simp [hqp]) hpaths
  | @status st item_id s now _ ih =>
      obtain ⟨hb, hids, hpaths⟩ := ih
      unfold set_status
      dsimp only
      refine ⟨?_, ?_, ?_⟩
      · intro r hr
        rcases List.mem_map.1 hr with ⟨q, hq, rfl⟩
        have := hb q hq
        by_cases hqi : q.id = item_id <;> simp [hqi] <;> omega
      · exact nodup_map_of_proj_preserved st.rows _ Item.id
          (fun q => by by_cases hqi : q.id = item_id <;> simp [hqi]) hids
      · exact nodup_map_of_proj_preserved st.rows _ Item.path
          (fun q => by by_cases hqi : q.id = item_id <;> simp [hqi]) hpaths
  | @path st st' item_id np nf _ hok ih =>
      obtain ⟨hb, hids, hpaths⟩ := ih
      unfold set_path at hok
      by_cases h1 : st.rows.any (fun q => decide (q.id = item_id))
      · rw [if_pos h1] at hok
        by_cases h2 : st.rows.any (fun q => decide (q.id ≠ item_id) && decide (q.path = np))
        · rw [if_pos h2] at hok; cases hok
        · rw [if_neg h2, Except.ok.injEq] at hok
          subst hok
          have hnp : ∀ q ∈ st.rows, ¬ (q.id = item_id) → q.path ≠ np := by
            intro q hq hqi hqp
            exact h2 (List.any_eq_true.2 ⟨q, hq, by simp [hqi, hqp]⟩)
          dsimp only
          refine ⟨?_, ?_, ?_⟩
          · intro r hr
            rcases List.mem_map.1 hr with ⟨q, hq, rfl⟩
            have := hb q hq
            by_cases hqi : q.id = item_id <;> simp [hqi] <;> omega
          · exact nodup_map_of_proj_preserved st.rows _ Item.id
              (fun q => by by_cases hqi : q.id = item_id <;> simp [hqi]) hids
          · exact nodup_path_map_ite st.rows (fun q => q.id = item_id)
              (fun q => { q with path := np, filename := nf }) np hpaths
              (filter_key_length_le_one st.rows Item.id item_id hids) hnp (fun _ => rfl)
      · rw [if_neg h1, Except.ok.injEq] at hok
        subst hok
        exact ⟨hb, hids, hpaths⟩
  | @pathByOld st st' op np nf _ hok ih =>
      obtain ⟨hb, hids, hpaths⟩ := ih
      unfold set_path_by_old_path at hok
      by_cases h1 : st.rows.any (fun q => decide (q.path = op))
      · rw [if_pos h1] at hok
        by_cases h2 : st.rows.any (fun q => decide (q.path ≠ op) && decide (q.path = np))
        · rw [if_pos h2] at hok; cases hok
        · rw [if_neg h2, Except.ok.injEq] at hok
          subst hok
          have hnp : ∀ q ∈ st.rows, ¬ (q.path = op) → q.path ≠ np := by
            intro q hq hqo hqp
            refine h2 (List.any_eq_true.2 ⟨q, hq, ?_⟩)
            rw [Bool.and_eq_true, decide_eq_true_eq, decide_eq_true_eq]
            exact ⟨hqo, hqp⟩
          dsimp only
          refine ⟨?_, ?_, ?_⟩
          · intro r hr
            rcases List.mem_map.1 hr with ⟨q, hq, rfl⟩
            have := hb q hq
            by_cases hqo : q.path = op <;> simp [hqo] <;> omega
          · exact nodup_map_of_proj_preserved st.rows _ Item.id
              (fun q => by by_cases hqo : q.path = op <;> simp [hqo]) hids
          · exact nodup_path_map_ite st.rows (fun q => q.path = op)
              (fun q => { q with path := np, filename := nf }) np hpaths
              (filter_key_length_le_one st.rows Item.path op hpaths) hnp (fun _ => rfl)
      · rw [if_neg h1, Except.ok.injEq] at hok
        subst hok
        exact ⟨hb, hids, hpaths⟩
  | @tags st item_id ts _ ih =>
      obtain ⟨hb, hids, hpaths⟩ := ih
      unfold add_tags
      cases hg : get_item st item_id with
      | none => exact ⟨hb, hids, hpaths⟩
      | some item =>
          dsimp only
          refine ⟨?_, ?_, ?_⟩
          · intro r hr
            rcases List.mem_map.1 hr with ⟨q, hq, rfl⟩
            have := hb q hq
            by_cases hqi : q.id = item_id <;> simp [hqi] <;> omega
          · exact nodup_map_of_proj_preserved st.rows _ Item.id
              (fun q => by by_cases hqi : q.id = item_id <;> simp [hqi]) hids
          · exact nodup_map_of_proj_preserved st.rows _ Item.path
              (fun q => by by_cases hqi : q.id = item_id <;> simp [hqi]) hpaths

/-! ### Counting (counts_by_status) -/

theorem counts_sum_rows (l : List Item) :
    (l.filter (fun r => decide (r.status = Status.new))).length
      + (l.filter (fun r => decide (r.status = Status.reviewed))).length
      + (l.filter (fun r => decide (r.status = Status.archived))).length
      + (l.filter (fun r => decide (r.status = Status.rejected))).length = l.length := by
  induction l with
  | nil => simp
  | cons r t ih =>
      cases hs : r.status <;> simp [List.filter_cons, hs] <;> omega

theorem map_path_upsert (st : Store) (p : FsPath) (f : String) (sz : Nat) (m now : ℚ) :
    (upsert_file st p f sz m now).2.rows.map Item.path
      = if st.rows.find? (fun r => decide (r.path = p)) = none
        then st.rows.map Item.path ++ [p] else st.rows.map Item.path := by
  rw [upsert_file_snd]
  cases hf : st.rows.find? (fun r => decide (r.path = p)) with
  | none =>
      dsimp only
      rw [if_pos rfl, List.map_append]
      rfl
  | some r0 =>
      dsimp only
      rw [if_neg (by simp)]
      exact map_proj_map_ite st.rows (fun q => q.path = p)
        (fun q => { q with filename := f, size := sz, mtime := m }) Item.path (fun _ => rfl)

theorem rows_length_set_status (st : Store) (item_id : Nat) (s : Status) (now : ℚ) :
    (set_status st item_id s now).rows.length = st.rows.length := by
  unfold set_status
  dsimp only
  rw [List.length_map]

theorem upsertAll_length (ps : List (FsPath × String × Nat × ℚ × ℚ)) :
    ∀ st : Store, (ps.map (fun x => x.1)).Nodup →
      (∀ x ∈ ps, x.1 ∉ st.rows.map Item.path) →
      (upsertAll st ps).rows.length = st.rows.length + ps.length := by
  induction ps with
  | nil => intro st _ _; simp [upsertAll]
  | cons x t ih =>
      intro st hnd hfresh
      rw [List.map_cons, List.nodup_cons] at hnd
      have hx : st.rows.find? (fun r => decide (r.path = x.1)) = none := by
        rw [List.find?_eq_none]
        intro r hr hc
        exact hfresh x (List.mem_cons_self x t) (List.mem_map.2 ⟨r, hr, by simpa using hc⟩)
      have hpaths1 : (upsert_file st x.1 x.2.1 x.2.2.1 x.2.2.2.1 x.2.2.2.2).2.rows.map Item.path
          = st.rows.map Item.path ++ [x.1] := by
        rw [map_path_upsert, if_pos hx]
      have hlen1 : (upsert_file st x.1 x.2.1 x.2.2.1 x.2.2.2.1 x.2.2.2.2).2.rows.length
          = st.rows.length + 1 := by
        have h := congrArg List.length hpaths1
        simpa using h
      have hfresh1 : ∀ y ∈ t,
          y.1 ∉ (upsert_file st x.1 x.2.1 x.2.2.1 x.2.2.2.1 x.2.2.2.2).2.rows.map Item.path := by
        intro y hy
        rw [hpaths1]
        intro hmem
        rcases List.mem_append.1 hmem with h1 | h1
        · exact hfresh y (List.mem_cons_of_mem _ hy) h1
        · exact hnd.1 (List.mem_singleton.1 h1 ▸ List.mem_map.2 ⟨y, hy, rfl⟩)
      have := ih (upsert_file st x.1 x.2.1 x.2.2.1 x.2.2.2.1 x.2.2.2.2).2 hnd.2 hfresh1
      unfold upsertAll at this ⊢
      rw [List.foldl_cons, this, hlen1, List.length_cons]
      omega

theorem setStatusAll_length (ops : List (Nat × Status × ℚ)) :
    ∀ st : Store, (setStatusAll st ops).rows.length = st.rows.length := by
  induction ops with
  | nil => intro st; rfl
  | cons o t ih =>
      intro st
      unfold setStatusAll at ih ⊢
      rw [List.foldl_cons, ih, rows_length_set_status]

/-! ### Transition timestamps (set_status) -/

theorem orElse_fun_none (x : Option ℚ) : (x.orElse fun _ => none) = x := by
  cases x <;> rfl

theorem transitionStamp_applyStatus_self (s : Status) (now : ℚ) (r : Item) (hs : s ≠ .new) :
    transitionStamp s (applyStatus s now r) = some ((transitionStamp s r).getD now) := by
  cases s with
  | new => exact absurd rfl hs
  | reviewed => cases h : r.reviewed_at <;> simp [transitionStamp, applyStatus, h, Option.orElse]
  | archived => cases h : r.archived_at <;> simp [transitionStamp, applyStatus, h, Option.orElse]
  | rejected => cases h : r.rejected_at <;> simp [transitionStamp, applyStatus, h, Option.orElse]

theorem transitionStamp_applyStatus_other (s s' : Status) (now : ℚ) (r : Item)
    (h : s' ≠ s) : transitionStamp s' (applyStatus s now r) = transitionStamp s' r := by
  cases s' with
  | new => rfl
  | reviewed =>
      have : (s = Status.reviewed) = False := by
        simp only [eq_iff_iff, iff_false]
        intro hc
        exact h (hc ▸ rfl)
      simp [transitionStamp, applyStatus, this, orElse_fun_none]
  | archived =>
      have : (s = Status.archived) = False := by
        simp only [eq_iff_iff, iff_false]
        intro hc
        exact h (hc ▸ rfl)
      simp [transitionStamp, applyStatus, this, orElse_fun_none]
  | rejected =>
      have : (s = Status.rejected) = False := by
        simp only [eq_iff_iff, iff_false]
        intro hc
        exact h (hc ▸ rfl)
      simp [transitionStamp, applyStatus, this, orElse_fun_none]

theorem transitionStamp_applyStatus_idem (s : Status) (now now' : ℚ) (r : Item) :
    transitionStamp s (applyStatus s now' (applyStatus s now r))
      = transitionStamp s (applyStatus s now r) := by
  cases s with
  | new => rfl
  | reviewed => cases h : r.reviewed_at <;> simp [transitionStamp, applyStatus, h, Option.orElse]
  | archived => cases h : r.archived_at <;> simp [transitionStamp, applyStatus, h, Option.orElse]
  | rejected => cases h : r.rejected_at <;> simp [transitionStamp, applyStatus, h, Option.orElse]

/-! ### The claims -/

/-- C1 (code bug): `upsert_file` should return the identifier of the Item
stored for the path both on insert and on update, with upserts of other
paths allowed between two upserts of one path.  The code returns
`cur.lastrowid` whenever it is truthy, but the `ON CONFLICT DO UPDATE`
branch leaves the connection's `last_insert_rowid` at the value of the
previous insert: after inserting `w/a` (id 1) and `w/b` (id 2), upserting
`w/a` again returns 2 although the Item stored for `w/a` has id 1. -/
theorem upsert_returns_stale_rowid :
    (upsert_file connect ["w", "a"] "a" 1 0 100).1 = 1 ∧
    (upsert_file (upsert_file connect ["w", "a"] "a" 1 0 100).2 ["w", "b"] "b" 1 0 100).1 = 2 ∧
    (upsert_file (upsert_file (upsert_file connect ["w", "a"] "a" 1 0 100).2
        ["w", "b"] "b" 1 0 100).2 ["w", "a"] "a" 2 5 200).1 = 2 ∧
    (get_item_by_path (upsert_file (upsert_file (upsert_file connect ["w", "a"] "a" 1 0 100).2
        ["w", "b"] "b" 1 0 100).2 ["w", "a"] "a" 2 5 200).2 ["w", "a"]).map Item.id
      = some 1 := by
  decide

/-- C3 (counterexample): the claim says the settle predicate is true exactly
when `settle_seconds ≤ 0` or `now - last_modified ≥ settle_seconds`.  At
`settle_seconds = -2`, `now = 0`, `last_modified = 3` the spec predicate is
true but the code's check (Python truthiness of the float, then the `<`
comparison) skips the file. -/
theorem settle_spec_mismatch :
    is_settled_spec 3 0 (-2) = true ∧ scannerAccepts (-2) 0 3 = false := by
  constructor
  · simp only [is_settled_spec, Bool.or_eq_true, decide_eq_true_eq]
    left
    norm_num
  · simp only [scannerAccepts, Bool.not_eq_false', Bool.and_eq_true, decide_eq_true_eq]
    norm_num

/-- C3 (amended): the Scanner's per-file check and the create-event intake
path apply one identical settle predicate, which is true exactly when
`settle_seconds == 0` (the Python-falsy threshold) or
`now - mtime ≥ settle_seconds`. -/
theorem settle_checks_agree (settle_seconds now mtime : ℚ) :
    scannerAccepts settle_seconds now mtime = intakeAccepts settle_seconds now mtime ∧
    (scannerAccepts settle_seconds now mtime = true ↔
      (settle_seconds = 0 ∨ now - mtime ≥ settle_seconds)) := by
  refine ⟨rfl, ?_⟩
  unfold scannerAccepts
  rcases eq_or_ne settle_seconds 0 with h | h
  · simp [h]
  · simp [h, not_lt, ge_iff_le]

/-- C5: archiving an item whose recorded source path no longer exists sets
its status to `archived`, returns the updated Item with path and filename
unchanged, and does not touch the filesystem at all. -/
theorem archive_missing_source (st : Store) (fs : Fs) (cfg : Config) (item_id : Nat)
    (now : ℚ) (item : Item) (hget : get_item st item_id = some item)
    (hfs : fs item.path = false) :
    ∃ item', (archive st fs cfg item_id now).2.1 = fs ∧
      (archive st fs cfg item_id now).2.2 = .ok item' ∧
      item'.status = .archived ∧ item'.path = item.path ∧
      item'.filename = item.filename ∧ item'.id = item.id ∧
      (get_item (archive st fs cfg item_id now).1 item_id).map Item.path
        = some item.path := by
  unfold archive
  simp only [hget]
  rw [if_pos hfs]
  have hg2 : get_item (set_status st item_id .archived now) item_id
      = some (applyStatus .archived now item) := by
    rw [get_item_set_status, hget, Option.map_some']
  simp only [hg2]
  refine ⟨applyStatus .archived now item, ?_, ?_, ?_, ?_, ?_, ?_, ?_⟩ <;> trivial

/-- C5 witness: archiving the tracked but already-deleted file `d/x.txt`. -/
theorem archive_missing_source_witness :
    ∃ item', (archive renameDemoStore missingFs archiveDemoCfg 1 50).2.1 = missingFs ∧
      (archive renameDemoStore missingFs archiveDemoCfg 1 50).2.2 = .ok item' ∧
      item'.status = .archived ∧ item'.path = ["d", "x.txt"] ∧
      item'.filename = "x.txt" ∧ item'.id = 1 ∧
      (get_item (archive renameDemoStore missingFs archiveDemoCfg 1 50).1 1).map Item.path
        = some ["d", "x.txt"] :=
  archive_missing_source renameDemoStore missingFs archiveDemoCfg 1 50
    ⟨1, ["d", "x.txt"], "x.txt", 1, 0, 10, .new, none, none, none, []⟩
    (by decide) (by decide)

/-- C8: each of the four lifecycle actions called on an identifier unknown
to the store fails with the inspectable Not-Found error naming that id and
leaves the store (and, where applicable, the filesystem) unchanged. -/
theorem actions_unknown_id (st : Store) (fs : Fs) (cfg : Config) (item_id : Nat)
    (now : ℚ) (new_name : String) (h : get_item st item_id = none) :
    mark_reviewed st item_id now = (st, .error (.notFound item_id)) ∧
    reject st item_id now = (st, .error (.notFound item_id)) ∧
    archive st fs cfg item_id now = (st, fs, .error (.notFound item_id)) ∧
    rename st fs item_id new_name = (st, fs, .error (.notFound item_id)) := by
  unfold mark_reviewed reject archive rename
  simp [h]

/-- C8 witness: id 7 is unknown to the two-item demo store. -/
theorem actions_unknown_id_witness :
    mark_reviewed archiveDemoStore 7 50 = (archiveDemoStore, .error (.notFound 7)) ∧
    reject archiveDemoStore 7 50 = (archiveDemoStore, .error (.notFound 7)) ∧
    archive archiveDemoStore archiveDemoFs archiveDemoCfg 7 50
      = (archiveDemoStore, archiveDemoFs, .error (.notFound 7)) ∧
    rename archiveDemoStore archiveDemoFs 7 "y.txt"
      = (archiveDemoStore, archiveDemoFs, .error (.notFound 7)) :=
  actions_unknown_id archiveDemoStore archiveDemoFs archiveDemoCfg 7 50 "y.txt" (by decide)

/-- C2: upserting a path that is already present updates only the filename,
size and mtime of the stored Item — its id, status, first_seen,
reviewed_at, archived_at, rejected_at and tags are untouched — while a
fresh upsert stores an Item with status `new`, `first_seen = now`, and
empty transition timestamps and tags. -/
theorem upsert_file_frame (st : Store) (p : FsPath) (f : String) (sz : Nat) (m now : ℚ) :
    (∀ r, get_item_by_path st p = some r →
        get_item_by_path (upsert_file st p f sz m now).2 p
          = some { r with filename := f, size := sz, mtime := m })
    ∧ (get_item_by_path st p = none →
        ∃ r', get_item_by_path (upsert_file st p f sz m now).2 p = some r' ∧
          r'.status = .new ∧ r'.first_seen = now ∧ r'.filename = f ∧
          r'.size = sz ∧ r'.mtime = m ∧ r'.reviewed_at = none ∧
          r'.archived_at = none ∧ r'.rejected_at = none ∧ r'.tags = []) := by
  constructor
  · intro r hr
    rw [get_item_by_path_upsert]
    simp only [hr]
  · intro hn
    rw [get_item_by_path_upsert]
    simp only [hn]
    exact ⟨_, rfl, rfl, rfl, rfl, rfl, rfl, rfl, rfl, rfl, rfl⟩

/-- C2 witness: a fresh upsert of `w/a` followed by a second upsert of the
same path with new metadata. -/
theorem upsert_file_frame_witness :
    get_item_by_path
        (upsert_file (upsert_file connect ["w", "a"] "a" 1 0 100).2 ["w", "a"] "b" 2 5 200).2
        ["w", "a"]
      = some ⟨1, ["w", "a"], "b", 2, 5, 100, .new, none, none, none, []⟩ :=
  (upsert_file_frame (upsert_file connect ["w", "a"] "a" 1 0 100).2 ["w", "a"] "b" 2 5 200).1
    ⟨1, ["w", "a"], "a", 1, 0, 100, .new, none, none, none, []⟩ (by decide)

/-- C7: `set_status` sets the status; it writes the transition timestamp
belonging to the target status only when that timestamp is unset (the other
statuses' timestamps are untouched), so a second call with the same target
leaves the timestamp unchanged; and a call on an unknown id changes
nothing. -/
theorem set_status_first_write_wins :
    (∀ st item_id s now item, get_item st item_id = some item →
       ∃ item', get_item (set_status st item_id s now) item_id = some item' ∧
         item'.status = s ∧
         (s ≠ .new → transitionStamp s item' = some ((transitionStamp s item).getD now)) ∧
         (∀ s', s' ≠ s → transitionStamp s' item' = transitionStamp s' item))
    ∧ (∀ st item_id s now now',
        (get_item (set_status (set_status st item_id s now) item_id s now') item_id).map
            (transitionStamp s)
          = (get_item (set_status st item_id s now) item_id).map (transitionStamp s))
    ∧ (∀ st item_id s now, get_item st item_id = none →
        set_status st item_id s now = st) := by
  refine ⟨?_, ?_, ?_⟩
  · intro st item_id s now item hget
    rw [get_item_set_status, hget, Option.map_some']
    exact ⟨applyStatus s now item, rfl, rfl,
      fun hs => transitionStamp_applyStatus_self s now item hs,
      fun s' hs' => transitionStamp_applyStatus_other s s' now item hs'⟩
  · intro st item_id s now now'
    rw [get_item_set_status, get_item_set_status]
    cases hget : get_item st item_id with
    | none => rfl
    | some r =>
        simp only [Option.map_some']
        exact congrArg some (transitionStamp_applyStatus_idem s now now' r)
  · intro st item_id s now h
    exact set_status_unknown s now h

/-- C7 witness: marking the freshly upserted `w/a` reviewed twice keeps the
first `reviewed_at`, and id 9 is unknown to the empty store. -/
theorem set_status_first_write_wins_witness :
    (∃ item', get_item
        (set_status (upsert_file connect ["w", "a"] "a" 1 0 100).2 1 .reviewed 50) 1
          = some item' ∧
      item'.status = .reviewed ∧
      (Status.reviewed ≠ .new →
        transitionStamp .reviewed item'
          = some ((transitionStamp .reviewed
              (⟨1, ["w", "a"], "a", 1, 0, 100, .new, none, none, none, []⟩ : Item)).getD 50)) ∧
      (∀ s', s' ≠ Status.reviewed →
        transitionStamp s' item'
          = transitionStamp s' (⟨1, ["w", "a"], "a", 1, 0, 100, .new, none, none, none, []⟩ : Item)))
    ∧ set_status connect 9 .archived 50 = connect :=
  ⟨set_status_first_write_wins.1 (upsert_file connect ["w", "a"] "a" 1 0 100).2 1 .reviewed 50
      ⟨1, ["w", "a"], "a", 1, 0, 100, .new, none, none, none, []⟩ (by decide),
    set_status_first_write_wins.2.2 connect 9 .archived 50 (by decide)⟩

/-- C6 (counterexample): the claim says that for every known item id and new
filename the store's path and filename are updated to the destination
values.  Renaming item 1 (`d/a`) to `b` while item 2 already holds the
sibling path `d/b` instead raises the UNIQUE(path) constraint violation and
leaves the store — in particular item 1's stored filename `a` — unchanged. -/
theorem rename_collision_cex :
    (rename renameClashStore renameClashFs 1 "b").2.2 = .error .constraintViolation ∧
    (rename renameClashStore renameClashFs 1 "b").1 = renameClashStore ∧
    (get_item (rename renameClashStore renameClashFs 1 "b").1 1).map Item.filename
      = some "a" := by
  decide

/-- C6 (amended): for a known item id and new filename whose destination
(the sibling of the current path named by the new filename) is not already
held by a different Item, `rename` renames on disk when the source exists
(destination present afterwards, the old name gone if it differs, an
existing destination file silently overwritten), leaves the disk untouched
when the source is missing, and in both cases updates the store's path and
filename to the destination values. -/
theorem rename_updates_record (st : Store) (fs : Fs) (item_id : Nat) (new_name : String)
    (item : Item) (hget : get_item st item_id = some item)
    (hfree : ∀ q ∈ st.rows, q.id ≠ item_id → q.path ≠ withName item.path new_name) :
    ∃ item', (rename st fs item_id new_name).2.2 = .ok item' ∧
      item'.path = withName item.path new_name ∧
      item'.filename = new_name ∧ item'.id = item.id ∧
      (get_item (rename st fs item_id new_name).1 item_id).map Item.path
        = some (withName item.path new_name) ∧
      (get_item (rename st fs item_id new_name).1 item_id).map Item.filename
        = some new_name ∧
      (fs item.path = true →
        (rename st fs item_id new_name).2.1 (withName item.path new_name) = true ∧
        (item.path ≠ withName item.path new_name →
          (rename st fs item_id new_name).2.1 item.path = false)) ∧
      (fs item.path = false → (rename st fs item_id new_name).2.1 = fs) := by
  have hany : st.rows.any (fun q => decide (q.id = item_id)) = true := by
    rw [List.any_eq_true]
    exact ⟨item, List.mem_of_find?_eq_some hget, by simpa using List.find?_some hget⟩
  have hnov : st.rows.any (fun q => decide (q.id ≠ item_id)
      && decide (q.path = withName item.path new_name)) = false := by
    rw [Bool.eq_false_iff]
    intro hc
    rcases List.any_eq_true.1 hc with ⟨q, hq, hq'⟩
    rw [Bool.and_eq_true, decide_eq_true_eq, decide_eq_true_eq] at hq'
    exact hfree q hq hq'.1 hq'.2
  have hok : set_path st item_id (withName item.path new_name)
      (pathName (withName item.path new_name))
      = .ok { st with rows := st.rows.map fun q =>
          if q.id = item_id then
            { q with path := withName item.path new_name,
                     filename := pathName (withName item.path new_name) }
          else q } := by
    unfold set_path
    rw [if_pos hany, if_neg (by rw [hnov]; simp)]
  unfold rename
  simp only [hget, hok]
  have hg1 : get_item ({ st with rows := st.rows.map fun q =>
      if q.id = item_id then
        { q with path := withName item.path new_name,
                 filename := pathName (withName item.path new_name) }
      else q } : Store) item_id
      = some { item with
               path := withName item.path new_name,
               filename := pathName (withName item.path new_name) } := by
    have h := find?_map_keyed st.rows Item.id item_id
      (fun q => { q with
                  path := withName item.path new_name,
                  filename := pathName (withName item.path new_name) }) (fun _ => rfl)
    unfold get_item
    dsimp only
    rw [h]
    unfold get_item at hget
    rw [hget, Option.map_some']
  simp only [hg1]
  refine ⟨_, rfl, rfl, pathName_withName item.path new_name, rfl,
    by simp, by simp [pathName_withName],
    ?_, ?_⟩
  · intro hfs
    rw [if_pos hfs]
    constructor
    · show osReplace fs item.path (withName item.path new_name)
        (withName item.path new_name) = true
      unfold osReplace
      rw [if_pos rfl]
    · intro hne
      show osReplace fs item.path (withName item.path new_name) item.path = false
      unfold osReplace
      rw [if_neg hne, if_pos rfl]
  · intro hfs
    rw [if_neg (by simp [hfs])]

/-- C6 witness: renaming the tracked existing file `d/x.txt` to `y.txt`. -/
theorem rename_updates_record_witness :
    ∃ item', (rename renameDemoStore renameDemoFs 1 "y.txt").2.2 = .ok item' ∧
      item'.path = withName ["d", "x.txt"] "y.txt" ∧
      item'.filename = "y.txt" ∧ item'.id = 1 ∧
      (get_item (rename renameDemoStore renameDemoFs 1 "y.txt").1 1).map Item.path
        = some (withName ["d", "x.txt"] "y.txt") ∧
      (get_item (rename renameDemoStore renameDemoFs 1 "y.txt").1 1).map Item.filename
        = some "y.txt" ∧
      (renameDemoFs ["d", "x.txt"] = true →
        (rename renameDemoStore renameDemoFs 1 "y.txt").2.1 (withName ["d", "x.txt"] "y.txt")
            = true ∧
        ((["d", "x.txt"] : FsPath) ≠ withName ["d", "x.txt"] "y.txt" →
          (rename renameDemoStore renameDemoFs 1 "y.txt").2.1 ["d", "x.txt"] = false)) ∧
      (renameDemoFs ["d", "x.txt"] = false →
        (rename renameDemoStore renameDemoFs 1 "y.txt").2.1 = renameDemoFs) :=
  rename_updates_record renameDemoStore renameDemoFs 1 "y.txt"
    ⟨1, ["d", "x.txt"], "x.txt", 1, 0, 10, .new, none, none, none, []⟩
    (by decide) (by decide)

/-- C4: the archive destination is chosen by trying `name.ext`,
`name-1.ext`, `name-2.ext`, … in order within the fixed bound of 10000
candidates and taking the first free one; two successful archives —
in particular of two distinct source files sharing a filename — return
Items with distinct destination paths and filenames; and when every
candidate within the bound is taken, `archive` fails with the
Resource-Exhausted error and performs no file move. -/
theorem archive_collision_avoidance :
    (∀ fs dest_dir filename, uniqueDest fs dest_dir filename
        = (destCandidates dest_dir filename).find? (fun c => ! fs c))
    ∧ (∀ st fs cfg i1 i2 now now' st1 fs1 item1 st2 fs2 item2 a b,
        get_item st i1 = some a → fs a.path = true →
        archive st fs cfg i1 now = (st1, fs1, Except.ok item1) →
        get_item st1 i2 = some b → fs1 b.path = true →
        archive st1 fs1 cfg i2 now' = (st2, fs2, Except.ok item2) →
        item1.path ≠ item2.path ∧ item1.filename ≠ item2.filename)
    ∧ (∀ st fs cfg item_id now item, get_item st item_id = some item →
        fs item.path = true →
        uniqueDest fs cfg.archive_folder (pathName item.path) = none →
        archive st fs cfg item_id now = (st, fs, Except.error Err.resourceExhausted)) := by
  refine ⟨uniqueDest_eq_find?, ?_, ?_⟩
  · intro st fs cfg i1 i2 now now' st1 fs1 item1 st2 fs2 item2 a b hga hfa h1 hgb hfb h2
    obtain ⟨d1, hud1, hfs1, hp1, hn1, -, -⟩ := archive_ok_spec hga hfa h1
    obtain ⟨d2, hud2, -, hp2, hn2, -, -⟩ := archive_ok_spec hgb hfb h2
    obtain ⟨hfree1, n1, hd1⟩ := uniqueDest_some_free hud1
    obtain ⟨hfree2, n2, hd2⟩ := uniqueDest_some_free hud2
    have hd1in : fs1 d1 = true := by
      rw [hfs1]
      unfold osReplace
      rw [if_pos rfl]
    have hne : d1 ≠ d2 := by
      intro he
      rw [he] at hd1in
      rw [hd1in] at hfree2
      exact absurd hfree2 (by decide)
    refine ⟨by rw [hp1, hp2]; exact hne, ?_⟩
    rw [hn1, hn2, hd1, hd2, pathName_childPath, pathName_childPath]
    intro he
    exact hne (by rw [hd1, hd2, he])
  · intro st fs cfg item_id now item hget hfs hud
    unfold archive
    simp only [hget]
    rw [if_neg (by simp [hfs])]
    simp only [hud]

/-- C4 witness: archiving the two demo files `d1/a.txt` and `d2/a.txt`
(same filename) lands them at `arc/a.txt` and `arc/a-1.txt`; on the full
filesystem `archive` reports Resource-Exhausted and moves nothing. -/
theorem archive_collision_avoidance_witness :
    (uniqueDest archiveDemoFs ["arc"] "a.txt"
        = (destCandidates ["arc"] "a.txt").find? (fun c => ! archiveDemoFs c))
    ∧ ((⟨1, ["arc", "a.txt"], "a.txt", 1, 0, 10, .archived, none, some 50, none, []⟩ : Item).path
          ≠ (⟨2, ["arc", "a-1.txt"], "a-1.txt", 2, 0, 11,
              .archived, none, some 60, none, []⟩ : Item).path
        ∧ (⟨1, ["arc", "a.txt"], "a.txt", 1, 0, 10,
              .archived, none, some 50, none, []⟩ : Item).filename
          ≠ (⟨2, ["arc", "a-1.txt"], "a-1.txt", 2, 0, 11,
              .archived, none, some 60, none, []⟩ : Item).filename)
    ∧ archive renameDemoStore fullFs archiveDemoCfg 1 50
        = (renameDemoStore, fullFs, Except.error Err.resourceExhausted) := by
  refine ⟨archive_collision_avoidance.1 archiveDemoFs ["arc"] "a.txt", ?_, ?_⟩
  · have h1 : archive archiveDemoStore archiveDemoFs archiveDemoCfg 1 50
        = (demoArchive1.1, demoArchive1.2.1,
           Except.ok (⟨1, ["arc", "a.txt"], "a.txt", 1, 0, 10,
             .archived, none, some 50, none, []⟩ : Item)) := by
      have hx : demoArchive1.2.2
          = Except.ok (⟨1, ["arc", "a.txt"], "a.txt", 1, 0, 10,
              .archived, none, some 50, none, []⟩ : Item) := by
        decide
      exact hx ▸ (rfl : archive archiveDemoStore archiveDemoFs archiveDemoCfg 1 50
        = (demoArchive1.1, demoArchive1.2.1, demoArchive1.2.2))
    have h2 : archive demoArchive1.1 demoArchive1.2.1 archiveDemoCfg 2 60
        = (demoArchive2.1, demoArchive2.2.1,
           Except.ok (⟨2, ["arc", "a-1.txt"], "a-1.txt", 2, 0, 11,
             .archived, none, some 60, none, []⟩ : Item)) := by
      have hx : demoArchive2.2.2
          = Except.ok (⟨2, ["arc", "a-1.txt"], "a-1.txt", 2, 0, 11,
              .archived, none, some 60, none, []⟩ : Item) := by
        decide
      exact hx ▸ (rfl : archive demoArchive1.1 demoArchive1.2.1 archiveDemoCfg 2 60
        = (demoArchive2.1, demoArchive2.2.1, demoArchive2.2.2))
    exact archive_collision_avoidance.2.1 archiveDemoStore archiveDemoFs archiveDemoCfg
      1 2 50 60 demoArchive1.1 demoArchive1.2.1 _ demoArchive2.1 demoArchive2.2.1 _
      ⟨1, ["d1", "a.txt"], "a.txt", 1, 0, 10, .new, none, none, none, []⟩
      ⟨2, ["d2", "a.txt"], "a.txt", 2, 0, 11, .new, none, none, none, []⟩
      (by decide) (by decide) h1 (by decide) (by decide) h2
  · have hnone : uniqueDest fullFs archiveDemoCfg.archive_folder
        (pathName (["d", "x.txt"] : FsPath)) = none := by
      rw [uniqueDest_eq_find?, List.find?_eq_none]
      intro c _
      simp [fullFs]
    exact archive_collision_avoidance.2.2 renameDemoStore fullFs archiveDemoCfg 1 50
      ⟨1, ["d", "x.txt"], "x.txt", 1, 0, 10, .new, none, none, none, []⟩
      (by decide) rfl hnone

/-- C9: `counts_by_status` is a total map over exactly the four statuses,
zero for a status no Item has; and after N distinct paths are upserted into
a fresh store, followed by any sequence of `set_status` transitions, the
four counts sum to N. -/
theorem counts_by_status_total :
    (∀ st, counts_by_status st .new + counts_by_status st .reviewed
        + counts_by_status st .archived + counts_by_status st .rejected = st.rows.length)
    ∧ (∀ st s, (∀ r ∈ st.rows, r.status ≠ s) → counts_by_status st s = 0)
    ∧ (∀ ps : List (FsPath × String × Nat × ℚ × ℚ), (ps.map (fun x => x.1)).Nodup →
        ∀ ops : List (Nat × Status × ℚ),
          counts_by_status (setStatusAll (upsertAll connect ps) ops) .new
            + counts_by_status (setStatusAll (upsertAll connect ps) ops) .reviewed
            + counts_by_status (setStatusAll (upsertAll connect ps) ops) .archived
            + counts_by_status (setStatusAll (upsertAll connect ps) ops) .rejected
            = ps.length) := by
  have hsum : ∀ st : Store, counts_by_status st .new + counts_by_status st .reviewed
      + counts_by_status st .archived + counts_by_status st .rejected = st.rows.length :=
    fun st => counts_sum_rows st.rows
  refine ⟨hsum, ?_, ?_⟩
  · intro st s h
    unfold counts_by_status
    rw [List.length_eq_zero, List.filter_eq_nil_iff]
    intro r hr
    simpa using h r hr
  · intro ps hnd ops
    rw [hsum, setStatusAll_length, upsertAll_length ps connect hnd (by simp [connect])]
    simp [connect]

/-- C9 witness: counts on the fresh store, a zero bucket, and the
two-insert three-transition run summing to 2. -/
theorem counts_by_status_total_witness :
    (counts_by_status connect .new + counts_by_status connect .reviewed
        + counts_by_status connect .archived + counts_by_status connect .rejected
      = connect.rows.length)
    ∧ counts_by_status (upsert_file connect ["w", "a"] "a" 1 0 100).2 .reviewed = 0
    ∧ (counts_by_status (setStatusAll (upsertAll connect demoBatch) demoOps) .new
        + counts_by_status (setStatusAll (upsertAll connect demoBatch) demoOps) .reviewed
        + counts_by_status (setStatusAll (upsertAll connect demoBatch) demoOps) .archived
        + counts_by_status (setStatusAll (upsertAll connect demoBatch) demoOps) .rejected
        = 2) :=
  ⟨counts_by_status_total.1 connect,
   counts_by_status_total.2.1 (upsert_file connect ["w", "a"] "a" 1 0 100).2 .reviewed
     (by decide),
   counts_by_status_total.2.2 demoBatch (by decide) demoOps⟩

/-- C10: every reachable store state holds at most one Item per distinct
path, and the uniqueness is enforced by the store's constraint rather than
by callers: `set_path`, `set_path_by_old_path` and `rename` fail with the
constraint-violation error — leaving the stored rows unchanged — whenever
the target path is already held by a different Item. -/
theorem unique_path_enforced :
    (∀ st, Reach st → (st.rows.map Item.path).Nodup)
    ∧ (∀ st item_id np nf, (∃ q ∈ st.rows, q.id = item_id) →
        (∃ q ∈ st.rows, q.id ≠ item_id ∧ q.path = np) →
        set_path st item_id np nf = .error .constraintViolation)
    ∧ (∀ st op np nf, (∃ q ∈ st.rows, q.path = op) →
        (∃ q ∈ st.rows, q.path ≠ op ∧ q.path = np) →
        set_path_by_old_path st op np nf = .error .constraintViolation)
    ∧ (∀ st fs item_id new_name item, get_item st item_id = some item →
        (∃ q ∈ st.rows, q.id ≠ item_id ∧ q.path = withName item.path new_name) →
        (rename st fs item_id new_name).1 = st ∧
        (rename st fs item_id new_name).2.2 = .error .constraintViolation) := by
  refine ⟨?_, ?_, ?_, ?_⟩
  · intro st h
    exact (reach_inv h).2.2
  · intro st item_id np nf h1 h2
    obtain ⟨q0, hq0, hq0id⟩ := h1
    obtain ⟨q1, hq1, hq1a, hq1b⟩ := h2
    unfold set_path
    rw [if_pos (List.any_eq_true.2 ⟨q0, hq0, by simp [hq0id]⟩),
        if_pos (List.any_eq_true.2 ⟨q1, hq1, by
          rw [Bool.and_eq_true, decide_eq_true_eq, decide_eq_true_eq]
          exact ⟨hq1a, hq1b⟩⟩)]
  · intro st op np nf h1 h2
    obtain ⟨q0, hq0, hq0p⟩ := h1
    obtain ⟨q1, hq1, hq1a, hq1b⟩ := h2
    unfold set_path_by_old_path
    rw [if_pos (List.any_eq_true.2 ⟨q0, hq0, by simp [hq0p]⟩),
        if_pos (List.any_eq_true.2 ⟨q1, hq1, by
          rw [Bool.and_eq_true, decide_eq_true_eq, decide_eq_true_eq]
          exact ⟨hq1a, hq1b⟩⟩)]
  · intro st fs item_id new_name item hget hclash
    have herr : set_path st item_id (withName item.path new_name)
        (pathName (withName item.path new_name)) = .error .constraintViolation := by
      obtain ⟨q1, hq1, hq1a, hq1b⟩ := hclash
      unfold set_path
      rw [if_pos (List.any_eq_true.2 ⟨item, List.mem_of_find?_eq_some hget,
            by simpa using List.find?_some hget⟩),
          if_pos (List.any_eq_true.2 ⟨q1, hq1, by
            rw [Bool.and_eq_true, decide_eq_true_eq, decide_eq_true_eq]
            exact ⟨hq1a, hq1b⟩⟩)]
    unfold rename
    simp only [hget, herr]
    constructor <;> trivial

/-- C10 witness: a reachable one-item store has unique paths, and the three
mutators reject retargeting item 1 of the clash store onto item 2's path. -/
theorem unique_path_enforced_witness :
    ((upsert_file connect ["w", "a"] "a" 1 0 100).2.rows.map Item.path).Nodup
    ∧ set_path renameClashStore 1 ["d", "b"] "b" = .error .constraintViolation
    ∧ set_path_by_old_path renameClashStore ["d", "a"] ["d", "b"] "b"
        = .error .constraintViolation
    ∧ ((rename renameClashStore renameClashFs 1 "b").1 = renameClashStore ∧
       (rename renameClashStore renameClashFs 1 "b").2.2
         = .error .constraintViolation) :=
  ⟨unique_path_enforced.1 _ (Reach.upsert ["w", "a"] "a" 1 0 100 Reach.init),
   unique_path_enforced.2.1 renameClashStore 1 ["d", "b"] "b" (by decide) (by decide),
   unique_path_enforced.2.2.1 renameClashStore ["d", "a"] ["d", "b"] "b"
     (by decide) (by decide),
   unique_path_enforced.2.2.2 renameClashStore renameClashFs 1 "b"
     ⟨1, ["d", "a"], "a", 1, 0, 10, .new, none, none, none, []⟩
     (by decide) (by decide)⟩

end QuietDrop
